import Mathlib

/-!
Verification of the XML-RPC pinger worker (`src/index.ts`).

The development shallowly embeds the worker's logic:

* `escapeXml` / `xmlRpc` — the protocol encoder (source lines 392-408);
* `planJs` / `plan` / `planList` — the batch planner slice computation
  (source lines 268-271) and its cursor-driven iteration;
* `doPing` — the orchestrator (lines 240-361), returning both the report and
  the ordered trace of key-value operations and ping dispatches;
* `manualTrigger` — the POST handler's persistence step (lines 162-172);
* `scheduledRun` — the cron handler (lines 204-230);
* `PoolStep` — a small-step model of `runPool`'s cooperative worker pool
  (lines 316-328).

JavaScript numbers that can be `NaN` (the results of `Number(...)` on
environment strings) are modelled as `Option ℤ` (`none` = `NaN`), with
`Math.min` / `Math.max` / `+` propagating `NaN` as in JS.
-/

/-- A JS number that may be `NaN`: `none` models `NaN`. -/
def JsNum := Option ℤ
deriving DecidableEq, Inhabited

/-- Model of `Math.min`: returns `NaN` if either argument is `NaN`. -/
def jsMin (a b : JsNum) : JsNum :=
  match a, b with
  | some x, some y => some (min x y)
  | _, _ => none

/-- Model of `Math.max`: returns `NaN` if either argument is `NaN`. -/
def jsMax (a b : JsNum) : JsNum :=
  match a, b with
  | some x, some y => some (max x y)
  | _, _ => none

/-- JS `+` on possibly-`NaN` numbers. -/
def jsAdd (a b : JsNum) : JsNum :=
  match a, b with
  | some x, some y => some (x + y)
  | _, _ => none

/- ### Protocol encoder (`escapeXml`, `xmlRpc`) -/

/-- The double-quote character `"`. -/
def quoteC : Char := Char.ofNat 34

/-- The apostrophe character. -/
def aposC : Char := Char.ofNat 39

/-- The entity `"&amp;"` as a character list. -/
def ampEnt : List Char := ['&', 'a', 'm', 'p', ';']

/-- The entity `"&lt;"` as a character list. -/
def ltEnt : List Char := ['&', 'l', 't', ';']

/-- The entity `"&gt;"` as a character list. -/
def gtEnt : List Char := ['&', 'g', 't', ';']

/-- The entity `"&quot;"` as a character list. -/
def quotEnt : List Char := ['&', 'q', 'u', 'o', 't', ';']

/-- The entity `"&apos;"` as a character list. -/
def aposEnt : List Char := ['&', 'a', 'p', 'o', 's', ';']

/-- Model of `String.prototype.replaceAll` specialised to a single-character pattern:
every occurrence of `c` is replaced by `rep`. -/
def replaceAllC (c : Char) (rep : List Char) (s : List Char) : List Char :=
  s.flatMap (fun x => if x = c then rep else [x])

/-- The body of `escapeXml` on character lists: the source's five sequential
`replaceAll` passes, `&` first, then `<`, `>`, `"`, `'`. -/
def escapeXmlL (s : List Char) : List Char :=
  replaceAllC aposC aposEnt
    (replaceAllC quoteC quotEnt
      (replaceAllC '>' gtEnt
        (replaceAllC '<' ltEnt
          (replaceAllC '&' ampEnt s))))

/-- Embedding of `escapeXml` (source lines 406-408). -/
def escapeXml (s : String) : String :=
  String.mk (escapeXmlL s.data)

/-- The five reserved XML characters. -/
def reservedChars : List Char := ['&', '<', '>', quoteC, aposC]

/-- Per-character escaping: what each single character contributes to the
escaped output. -/
def escChar (c : Char) : List Char :=
  if c = '&' then ampEnt
  else if c = '<' then ltEnt
  else if c = '>' then gtEnt
  else if c = quoteC then quotEnt
  else if c = aposC then aposEnt
  else [c]

/-- The fixed XML-RPC markup skeleton, taking already-escaped parameter
strings. -/
def xmlRpcSkeleton (method : String) (escaped : List String) : String :=
  let paramXml := String.join (escaped.map
    (fun p => "<param><value><string>" ++ p ++ "</string></value></param>"))
  "<?xml version=\"1.0\"?>\n<methodCall>\n  <methodName>" ++ method ++
    "</methodName>\n  <params>" ++ paramXml ++ "</params>\n</methodCall>"

/-- Embedding of `xmlRpc` (source lines 392-399). -/
def xmlRpc (method : String) (params : List String) : String :=
  let paramXml := String.join (params.map
    (fun p => "<param><value><string>" ++ escapeXml p ++ "</string></value></param>"))
  "<?xml version=\"1.0\"?>\n<methodCall>\n  <methodName>" ++ method ++
    "</methodName>\n  <params>" ++ paramXml ++ "</params>\n</methodCall>"

theorem replaceAllC_append (c : Char) (rep : List Char) (xs ys : List Char) :
    replaceAllC c rep (xs ++ ys) = replaceAllC c rep xs ++ replaceAllC c rep ys := by
  simp [replaceAllC]

theorem escapeXmlL_append (xs ys : List Char) :
    escapeXmlL (xs ++ ys) = escapeXmlL xs ++ escapeXmlL ys := by
  simp [escapeXmlL, replaceAllC_append]

theorem escapeXmlL_singleton (c : Char) : escapeXmlL [c] = escChar c := by
  by_cases h1 : c = '&'
  · subst h1; decide
  · by_cases h2 : c = '<'
    · subst h2; decide
    · by_cases h3 : c = '>'
      · subst h3; decide
      · by_cases h4 : c = quoteC
        · subst h4; decide
        · by_cases h5 : c = aposC
          · subst h5; decide
          · simp [escapeXmlL, replaceAllC, escChar, h1, h2, h3, h4, h5]

/-- The sequential replace-all passes coincide with the per-character
transform: escaping is purely character-local. -/
theorem escapeXmlL_eq_bind (s : List Char) : escapeXmlL s = s.flatMap escChar := by
  induction s with
  | nil => decide
  | cons c s ih =>
      have h : (c :: s) = [c] ++ s := rfl
      rw [h, escapeXmlL_append, escapeXmlL_singleton, List.flatMap_append]
      simp [ih]

theorem escChar_shape (c : Char) :
    escChar c = ampEnt ∨ escChar c = ltEnt ∨ escChar c = gtEnt ∨
    escChar c = quotEnt ∨ escChar c = aposEnt ∨
    (escChar c = [c] ∧ c ∉ reservedChars) := by
  by_cases h1 : c = '&'
  · subst h1; left; decide
  · by_cases h2 : c = '<'
    · subst h2; right; left; decide
    · by_cases h3 : c = '>'
      · subst h3; right; right; left; decide
      · by_cases h4 : c = quoteC
        · subst h4; right; right; right; left; decide
        · by_cases h5 : c = aposC
          · subst h5; right; right; right; right; left; decide
          · right; right; right; right; right
            refine ⟨by simp [escChar, h1, h2, h3, h4, h5], ?_⟩
            simp [reservedChars, h1, h2, h3, h4, h5]

theorem count_escChar_eq_zero (d : Char) (hd : d ∈ ['<', '>', quoteC, aposC]) (c : Char) :
    (escChar c).count d = 0 := by
  have hshape := escChar_shape c
  rcases hshape with h | h | h | h | h | ⟨h, hres⟩ <;> rw [h]
  · fin_cases hd <;> decide
  · fin_cases hd <;> decide
  · fin_cases hd <;> decide
  · fin_cases hd <;> decide
  · fin_cases hd <;> decide
  · have : c ≠ d := by
      intro hcd
      subst hcd
      apply hres
      fin_cases hd <;> simp [reservedChars]
    simp [List.count_singleton, ne_comm.mp this]

theorem count_escapeXmlL_eq_zero (d : Char) (hd : d ∈ ['<', '>', quoteC, aposC])
    (s : List Char) : (escapeXmlL s).count d = 0 := by
  rw [escapeXmlL_eq_bind]
  induction s with
  | nil => simp
  | cons c s ih =>
      rw [List.flatMap_cons, List.count_append, ih, count_escChar_eq_zero d hd c]

/- ### Batch planner (`doPing` lines 268-271) -/

/-- The result of the slice computation. `batchEnd` is a JS number because a
`NaN` subrequest budget propagates into it. -/
structure Plan where
  batchStart : ℤ
  batchEnd : JsNum
  batch : List String
  nextCursor : Option ℤ
deriving DecidableEq

/-- The array index actually used by `endpoints.slice(start, end)` for the
`end` argument: `NaN` converts to `0`. -/
def jsEndIdx (e : JsNum) : ℕ :=
  match e with
  | none => 0
  | some x => x.toNat

/-- The slice computation of `doPing` (lines 268-271), over a possibly-`NaN`
budget:
`start = Math.max(0, cursor)`, `end = Math.min(len, start + budget)`,
`batch = endpoints.slice(start, end)`,
`nextCursor = end < len ? end : null` (false for `NaN`). -/
def planJs (endpoints : List String) (budget : JsNum) (cursor : ℤ) : Plan :=
  let start : ℤ := max 0 cursor
  let len : ℤ := (endpoints.length : ℤ)
  let e : JsNum := jsMin (some len) (jsAdd (some start) budget)
  { batchStart := start
    batchEnd := e
    batch := (endpoints.take (jsEndIdx e)).drop start.toNat
    nextCursor :=
      match e with
      | some x => if x < len then some x else none
      | none => none }

/-- The planner for a numeric (non-`NaN`) budget. -/
def plan (endpoints : List String) (B : ℤ) (cursor : ℤ) : Plan :=
  planJs endpoints (some B) cursor

theorem plan_batchStart (l : List String) (B c : ℤ) :
    (plan l B c).batchStart = max 0 c := rfl

theorem plan_batchEnd (l : List String) (B c : ℤ) :
    (plan l B c).batchEnd = some (min (l.length : ℤ) (max 0 c + B)) := rfl

theorem plan_batch (l : List String) (B c : ℤ) :
    (plan l B c).batch =
      (l.take (min (l.length : ℤ) (max 0 c + B)).toNat).drop (max 0 c).toNat := rfl

theorem plan_nextCursor (l : List String) (B c : ℤ) :
    (plan l B c).nextCursor =
      (if min (l.length : ℤ) (max 0 c + B) < (l.length : ℤ)
       then some (min (l.length : ℤ) (max 0 c + B)) else none) := rfl

/-- A result `nextCursor = some c'` forces `c' = max 0 c + B < len`. -/
theorem plan_nextCursor_some {l : List String} {B c c' : ℤ}
    (h : (plan l B c).nextCursor = some c') :
    c' = max 0 c + B ∧ c' < (l.length : ℤ) := by
  rw [plan_nextCursor] at h
  split at h
  · rename_i hlt
    obtain rfl : min (l.length : ℤ) (max 0 c + B) = c' := by
      simpa using h
    constructor
    · omega
    · exact hlt
  · exact absurd h (by simp)

/-- Repeatedly invoking the planner: start at `cursor`, then re-invoke with
the previous result's `nextCursor` until it is `null`, collecting the
batches. -/
def planList (l : List String) (B : ℤ) (hB : 1 ≤ B) (c : ℤ) : List (List String) :=
  match h : (plan l B c).nextCursor with
  | none => [(plan l B c).batch]
  | some c' => (plan l B c).batch :: planList l B hB c'
termination_by l.length - (max 0 c).toNat
decreasing_by
  obtain ⟨rfl, hlt⟩ := plan_nextCursor_some h
  omega

theorem planList_eq_of_none {l : List String} {B : ℤ} (hB : 1 ≤ B) {c : ℤ}
    (h : (plan l B c).nextCursor = none) :
    planList l B hB c = [(plan l B c).batch] := by
  rw [planList, h]

theorem planList_eq_of_some {l : List String} {B : ℤ} (hB : 1 ≤ B) {c c' : ℤ}
    (h : (plan l B c).nextCursor = some c') :
    planList l B hB c = (plan l B c).batch :: planList l B hB c' := by
  rw [planList, h]

/-- For a nonnegative cursor, the batch is `drop c` of the list, truncated at
the batch end. -/
theorem plan_batch_nonneg (l : List String) (B : ℤ) (c : ℤ) (hc : 0 ≤ c) :
    (plan l B c).batch =
      (l.take (min (l.length : ℤ) (c + B)).toNat).drop c.toNat := by
  rw [plan_batch]
  congr 2
  · omega
  · omega

/-- Concatenating all batches from a nonnegative cursor recovers the tail of
the endpoint list. -/
theorem planList_join (l : List String) (B : ℤ) (hB : 1 ≤ B) (c : ℤ) (hc : 0 ≤ c) :
    (planList l B hB c).flatten = l.drop c.toNat := by
  match h : (plan l B c).nextCursor with
  | none =>
      rw [planList_eq_of_none hB h]
      rw [plan_nextCursor] at h
      split at h
      · exact absurd h (by simp)
      · rename_i hnlt
        have hend : min (l.length : ℤ) (max 0 c + B) = (l.length : ℤ) := by omega
        rw [List.flatten_cons, List.flatten_nil, List.append_nil, plan_batch_nonneg l B c hc]
        have : min (l.length : ℤ) (c + B) = (l.length : ℤ) := by omega
        rw [this]
        simp
  | some c' =>
      obtain ⟨hc', hlt⟩ := plan_nextCursor_some h
      have hc'0 : 0 ≤ c' := by omega
      have hrec : (planList l B hB c').flatten = l.drop c'.toNat :=
        planList_join l B hB c' hc'0
      rw [planList_eq_of_some hB h, List.flatten_cons, hrec, plan_batch_nonneg l B c hc]
      have hmin : min (l.length : ℤ) (c + B) = c' := by omega
      rw [hmin]
      have h1 : ((l.take c'.toNat).drop c.toNat) ++ l.drop c'.toNat =
          (l.take c'.toNat ++ l.drop c'.toNat).drop c.toNat := by
        rw [List.drop_append_of_le_length]
        rw [List.length_take]
        omega
      rw [h1, List.take_append_drop]
termination_by l.length - (max 0 c).toNat
decreasing_by
  obtain ⟨rfl, hlt⟩ := plan_nextCursor_some h
  omega

/-- The number of planner invocations from a nonnegative cursor strictly
below the list length is `ceil((len - c) / B)`. -/
theorem planList_length (l : List String) (B : ℤ) (hB : 1 ≤ B) (c : ℤ)
    (hc : 0 ≤ c) (hlt : c < (l.length : ℤ)) :
    (planList l B hB c).length = (l.length - c.toNat + B.toNat - 1) / B.toNat := by
  match h : (plan l B c).nextCursor with
  | none =>
      rw [planList_eq_of_none hB h]
      rw [plan_nextCursor] at h
      split at h
      · exact absurd h (by simp)
      · rename_i hnlt
        have hle : (l.length : ℤ) ≤ c + B := by omega
        have h1 : l.length - c.toNat + B.toNat - 1 < 2 * B.toNat := by omega
        have h2 : B.toNat ≤ l.length - c.toNat + B.toNat - 1 := by omega
        have := Nat.div_eq_of_lt_le (by omega : 1 * B.toNat ≤ l.length - c.toNat + B.toNat - 1)
          (by omega : l.length - c.toNat + B.toNat - 1 < (1 + 1) * B.toNat)
        simpa using this.symm
  | some c' =>
      obtain ⟨hc', hclt⟩ := plan_nextCursor_some h
      have hc'0 : 0 ≤ c' := by omega
      have hrec : (planList l B hB c').length =
          (l.length - c'.toNat + B.toNat - 1) / B.toNat :=
        planList_length l B hB c' hc'0 hclt
      rw [planList_eq_of_some hB h, List.length_cons, hrec]
      have hBpos : 0 < B.toNat := by omega
      have hstep : l.length - c.toNat + B.toNat - 1 =
          (l.length - c'.toNat + B.toNat - 1) + B.toNat := by omega
      rw [hstep, Nat.add_div_right _ hBpos]
termination_by l.length - (max 0 c).toNat
decreasing_by
  obtain ⟨rfl, hlt2⟩ := plan_nextCursor_some h
  omega

/- ### Orchestrator state and effects -/

/-- KV keys used by the worker (source lines 123-124 and the string literals
in `fetch` / `doPing` / `scheduled`). -/
def RL_KEY : String := "xmlrpc:last-ping"

/-- The last-seen change id key. -/
def LAST_KEY : String := "xmlrpc:last-seen"

/-- The persisted endpoint-list key. -/
def ENDPOINTS_KEY : String := "xmlrpc:endpoints"

/-- The durable last-real-result key. -/
def LAST_RESULT_KEY : String := "xmlrpc:last-result"

/-- The dry-run snapshot key. -/
def LAST_DRY_KEY : String := "xmlrpc:last-dry"

/-- An observable effect of one invocation: a KV read, a KV write, or the
dispatch of one ping request. -/
inductive Ev where
  | get (key : String)
  | put (key : String)
  | ping (url : String)
deriving DecidableEq

/-- The environment bindings consumed by `doPing` and `scheduled`.
`SUBREQ_BUDGET` and `PING_CONCURRENCY` are configured as strings and read
via `Number(...)`; their fields here carry the parse result (a `JsNum`,
`none` = the string did not parse to a number). -/
structure PingEnv where
  SITE_NAME : Option String := none
  SITE_URL : Option String := none
  FEED_URL : Option String := none
  PING_ENDPOINTS : Option (List String) := none
  SUBREQ_BUDGET : Option JsNum := none
  PING_CONCURRENCY : Option JsNum := none
deriving DecidableEq

/-- The JSON payload of a manual trigger (`PingPayload`). A `null` or absent
`feedUrl` both behave as absent under `??`, so one `Option` suffices. -/
structure Payload where
  siteName : Option String := none
  siteUrl : Option String := none
  feedUrl : Option String := none
  endpoints : Option (List String) := none
deriving DecidableEq

/-- The output filter (`only`). -/
inductive OnlyFilter where
  | all
  | fail
  | success
deriving DecidableEq

/-- The options of `doPing` (`PingOpts`, lines 77-85). `concurrency` is
`some`-wrapped when the caller passes one explicitly. -/
structure Opts where
  dryRun : Bool := false
  concurrency : Option JsNum := none
  limit : ℤ := 0
  verbose : Bool := false
  only : OnlyFilter := .all
  cursor : ℤ := 0
deriving DecidableEq

/-- A snapshot of the KV entries `doPing` / `scheduled` read. -/
structure KvSnap where
  lastPing : Option String := none
  lastSeen : Option String := none
  endpointsList : Option (List String) := none
deriving DecidableEq

/-- Per-endpoint network behaviour: the fields of the settled response that
`pingWithTimeout` observes (`res.ok`, `res.status`, or the thrown error). -/
structure NetResp where
  ok : Bool
  status : ℤ
  error : Option String := none
deriving DecidableEq

/-- A ping outcome row (`PingResult`). -/
structure PingResult where
  url : String
  ok : Bool
  status : ℤ
  error : Option String := none
deriving DecidableEq

/-- What `pingWithTimeout` records for one URL (lines 289-307), given the
network's behaviour for it. -/
def mkPingResult (u : String) (r : NetResp) : PingResult :=
  { url := u, ok := r.ok, status := r.status, error := r.error }

/-- The `totals` object (lines 334-341). -/
structure Totals where
  total : ℕ
  batchStart : ℤ
  batchEnd : JsNum
  batchCount : ℕ
  ok : ℕ
  fail : ℕ
deriving DecidableEq

/-- The report of a completed (non-skipped) run. -/
structure DoneReport where
  dryRun : Bool
  method : String
  siteName : String
  siteUrl : String
  feedUrl : Option String
  totals : Totals
  summary : List PingResult
  nextCursor : Option ℤ
  subrequestBudget : JsNum
  concurrencyUsed : JsNum
deriving DecidableEq

/-- Embedding of `DoPingResult` (lines 43-63): either an early skip or a full report. -/
inductive DoPingResult where
  | skipped (reason : String)
  | done (r : DoneReport)
deriving DecidableEq

/-- The clamped subrequest budget (lines 244-245):
`Math.max(1, Math.min(Number(env.SUBREQ_BUDGET ?? 45), 1000))`. -/
def clampedBudget (env : PingEnv) : JsNum :=
  jsMax (some 1) (jsMin (env.SUBREQ_BUDGET.getD (some 45)) (some 1000))

/-- The effective concurrency (lines 241 and 246): the option's default is
`Math.max(1, Math.min(Number(env.PING_CONCURRENCY ?? 6), 10))`, and the used
value is `Math.max(1, Math.min(concurrency, 6))`. -/
def maxConcurrencyOf (env : PingEnv) (opts : Opts) : JsNum :=
  let concurrency := opts.concurrency.getD
    (jsMax (some 1) (jsMin (env.PING_CONCURRENCY.getD (some 6)) (some 10)))
  jsMax (some 1) (jsMin concurrency (some 6))

/-- The baked-in fallback endpoint list (line 126). -/
def minimal_endpoints : List String :=
  ["https://rpc.pingomatic.com/", "https://blogsearch.google.com/ping/RPC2",
   "https://rpc.twingly.com/", "https://ping.fc2.com/",
   "https://ping.feedburner.com", "http://ping.blo.gs/",
   "http://www.weblogues.com/RPC/", "http://www.blogdigger.com/RPC2",
   "http://pingoat.com/goat/RPC2"]

/-- Endpoint resolution (lines 259-265): the persisted KV list if it is a
non-empty array, else the payload list, else the configured list, else the
built-in minimal list; finally truncated by `limit` when positive. -/
def resolveEndpoints (env : PingEnv) (payload : Payload) (kv : KvSnap)
    (limit : ℤ) : List String :=
  let e0 := kv.endpointsList.getD []
  let eps :=
    if e0.isEmpty then
      payload.endpoints.getD (env.PING_ENDPOINTS.getD minimal_endpoints)
    else e0
  if 0 < limit then eps.take limit.toNat else eps

/-- The planned batch slice of an invocation (lines 268-270). -/
def batchOf (env : PingEnv) (payload : Payload) (opts : Opts) (kv : KvSnap) :
    List String :=
  (planJs (resolveEndpoints env payload kv opts.limit) (clampedBudget env)
    opts.cursor).batch

/-- The unfiltered batch results (line 330): one `PingResult` per batch URL,
as produced by `runPool` with the network behaviour `net`. -/
def rawSummary (env : PingEnv) (payload : Payload) (opts : Opts) (kv : KvSnap)
    (net : String → NetResp) : List PingResult :=
  (batchOf env payload opts kv).map (fun u => mkPingResult u (net u))

/-- The output filter (lines 331-332): two sequential conditional filters. -/
def applyOnly (only : OnlyFilter) (summary : List PingResult) : List PingResult :=
  let s1 := if only = .fail then summary.filter (fun r => !r.ok) else summary
  if only = .success then s1.filter (fun r => r.ok) else s1

/-- Embedding of `doPing` (lines 240-361), as a pure function of the environment, payload,
options, the KV snapshot it reads, and the network behaviour. Returns the
result together with the ordered trace of its KV operations and ping
dispatches. -/
def doPing (env : PingEnv) (payload : Payload) (opts : Opts) (kv : KvSnap)
    (net : String → NetResp) : DoPingResult × List Ev :=
  if ¬opts.dryRun ∧ kv.lastPing.isSome then
    (.skipped "rate-limited (<=1/hour)", [Ev.get RL_KEY])
  else
    let siteName := payload.siteName.getD (env.SITE_NAME.getD "Viorel Mocanu")
    let siteUrl := payload.siteUrl.getD (env.SITE_URL.getD "https://www.viorelmocanu.ro")
    let feedUrl := payload.feedUrl.orElse (fun _ => env.FEED_URL)
    let endpoints := resolveEndpoints env payload kv opts.limit
    let p := planJs endpoints (clampedBudget env) opts.cursor
    let method := if feedUrl.isSome then "weblogUpdates.extendedPing" else "weblogUpdates.ping"
    let summary := applyOnly opts.only (rawSummary env payload opts kv net)
    let totals : Totals :=
      { total := endpoints.length
        batchStart := p.batchStart
        batchEnd := p.batchEnd
        batchCount := p.batch.length
        ok := (summary.filter (fun r => r.ok)).length
        fail := (summary.filter (fun r => !r.ok)).length }
    let report : DoneReport :=
      { dryRun := opts.dryRun
        method := method
        siteName := siteName
        siteUrl := siteUrl
        feedUrl := feedUrl
        totals := totals
        summary := summary
        nextCursor := p.nextCursor
        subrequestBudget := clampedBudget env
        concurrencyUsed := maxConcurrencyOf env opts }
    let preTrace : List Ev := if opts.dryRun then [] else [Ev.get RL_KEY]
    let acquireTrace : List Ev := if opts.dryRun then [] else [Ev.put RL_KEY]
    let persistTrace : List Ev := if opts.dryRun then [] else [Ev.put LAST_RESULT_KEY]
    (.done report,
      preTrace ++ [Ev.get ENDPOINTS_KEY] ++ acquireTrace ++
        p.batch.map Ev.ping ++ persistTrace)

/-- The manual POST trigger's persistence step (lines 162-172): after
`doPing`, a non-dry call always writes `xmlrpc:last-result`, a dry call
always writes `xmlrpc:last-dry`. -/
def manualTrigger (env : PingEnv) (payload : Payload) (opts : Opts)
    (kv : KvSnap) (net : String → NetResp) : DoPingResult × List Ev :=
  let res := doPing env payload opts kv net
  if ¬opts.dryRun then
    (res.1, res.2 ++ [Ev.put LAST_RESULT_KEY])
  else
    (res.1, res.2 ++ [Ev.put LAST_DRY_KEY])

/-- The cron handler `scheduled` (lines 204-230), with the detector's answer
supplied as `latest` (the detector is an external collaborator). Returns the
trace of KV operations and ping dispatches. -/
def scheduledRun (env : PingEnv) (kv : KvSnap) (net : String → NetResp)
    (latest : Option String) : List Ev :=
  match latest with
  | none => []
  | some id =>
    if kv.lastSeen = some id then [Ev.get LAST_KEY]
    else if kv.lastPing.isSome then [Ev.get LAST_KEY, Ev.get RL_KEY]
    else
      [Ev.get LAST_KEY, Ev.get RL_KEY] ++
        (doPing env {} {} kv net).2 ++
        [Ev.put LAST_KEY, Ev.put RL_KEY, Ev.put LAST_RESULT_KEY]

/- ### `runPool` worker-pool model (lines 316-328) -/

/-- The state of one pooled worker: about to claim an index (`idle`),
awaiting the fetch for a claimed index (`pending idx`), or stopped after
claiming an out-of-range index (`stopped`). -/
inductive WStat where
  | idle
  | pending (idx : ℕ)
  | stopped
deriving DecidableEq

/-- The shared state of `runPool`: the shared index `i` (`counter`), the
worker states, and the indices whose results have been pushed, in push
order. -/
structure PoolSt where
  counter : ℕ
  workers : List WStat
  pushed : List ℕ
deriving DecidableEq

/-- The initial pool state with `n` workers
(`Array.from({length: n}, ...)`, all about to claim index 0). -/
def PoolSt.init (n : ℕ) : PoolSt :=
  { counter := 0, workers := List.replicate n .idle, pushed := [] }

/-- One scheduling step of `runPool` over `len` items. `const idx = i++` is
a single synchronous step; the `await fn(items[idx])` between claim and push
is the only yield point, so claims and pushes interleave arbitrarily across
workers. -/
inductive PoolStep (len : ℕ) : PoolSt → PoolSt → Prop where
  | claim (s : PoolSt) (w : ℕ) (hw : s.workers.get? w = some .idle)
      (h : s.counter < len) :
      PoolStep len s
        { counter := s.counter + 1,
          workers := s.workers.set w (.pending s.counter),
          pushed := s.pushed }
  | claimStop (s : PoolSt) (w : ℕ) (hw : s.workers.get? w = some .idle)
      (h : len ≤ s.counter) :
      PoolStep len s
        { counter := s.counter + 1,
          workers := s.workers.set w .stopped,
          pushed := s.pushed }
  | push (s : PoolSt) (w : ℕ) (idx : ℕ)
      (hw : s.workers.get? w = some (.pending idx)) :
      PoolStep len s
        { counter := s.counter,
          workers := s.workers.set w .idle,
          pushed := s.pushed ++ [idx] }

/-- Reachability of pool states by arbitrary interleavings. -/
def PoolReach (len : ℕ) : PoolSt → PoolSt → Prop :=
  Relation.ReflTransGen (PoolStep len)

/-- The state where `Promise.all(workers)` has settled: every worker has stopped. -/
def PoolDone (s : PoolSt) : Prop :=
  ∀ st ∈ s.workers, st = WStat.stopped

/-- The indices currently claimed but not yet pushed. -/
def pendings (ws : List WStat) : List ℕ :=
  ws.filterMap (fun st => match st with | .pending i => some i | _ => none)

/-- The contribution of a single worker state to `pendings`. -/
def pendingBlock (st : WStat) : List ℕ :=
  match st with
  | .pending i => [i]
  | _ => []

theorem pendings_cons (st : WStat) (ws : List WStat) :
    pendings (st :: ws) = pendingBlock st ++ pendings ws := by
  cases st <;> simp [pendings, pendingBlock]

theorem pendings_append (xs ys : List WStat) :
    pendings (xs ++ ys) = pendings xs ++ pendings ys := by
  simp [pendings]

theorem pendings_set_of_get {ws : List WStat} {w : ℕ} {a : WStat} (b : WStat)
    (hw : ws.get? w = some a) :
    pendings (ws.set w b) =
      pendings (ws.take w) ++ pendingBlock b ++ pendings (ws.drop (w + 1)) := by
  have hlt : w < ws.length := by
    by_contra hge
    rw [List.get?_eq_none.mpr (by omega)] at hw
    exact absurd hw (by simp)
  rw [List.set_eq_take_cons_drop _ hlt, pendings_append, pendings_cons]
  rw [List.append_assoc]

theorem pendings_decomp {ws : List WStat} {w : ℕ} {a : WStat}
    (hw : ws.get? w = some a) :
    pendings ws =
      pendings (ws.take w) ++ pendingBlock a ++ pendings (ws.drop (w + 1)) := by
  have hlt : w < ws.length := by
    by_contra hge
    rw [List.get?_eq_none.mpr (by omega)] at hw
    exact absurd hw (by simp)
  have ha : ws[w] = a := by
    have h2 : ws.get? w = some ws[w] := List.get?_eq_some.mpr ⟨hlt, rfl⟩
    rw [h2] at hw
    exact Option.some_injective _ hw
  conv_lhs =>
    rw [show ws = ws.take w ++ ws.drop w from (List.take_append_drop w ws).symm]
  rw [List.drop_eq_getElem_cons hlt, pendings_append, pendings_cons, ha,
    List.append_assoc]

/-- Pool invariant: the pushed and in-flight indices are, as a multiset,
exactly the in-range claims made so far; and once any worker has stopped
the shared counter has passed `len`. -/
def PoolInv (len : ℕ) (s : PoolSt) : Prop :=
  ((s.pushed : Multiset ℕ) + (pendings s.workers : Multiset ℕ) =
    (((List.range s.counter).filter (· < len) : List ℕ) : Multiset ℕ))
  ∧ ((∃ st ∈ s.workers, st = WStat.stopped) → len < s.counter)

theorem range_filter_succ (c len : ℕ) :
    (List.range (c + 1)).filter (· < len) =
      (List.range c).filter (· < len) ++ (if c < len then [c] else []) := by
  rw [List.range_succ, List.filter_append]
  congr 1
  split <;> simp_all

theorem range_filter_of_le {c len : ℕ} (h : len ≤ c) :
    (List.range c).filter (· < len) = List.range len := by
  induction c with
  | zero =>
      have : len = 0 := by omega
      subst this
      rfl
  | succ c ih =>
      by_cases hc : len ≤ c
      · rw [range_filter_succ, ih hc]
        have : ¬ c < len := by omega
        simp [this]
      · have hlen : len = c + 1 := by omega
        subst hlen
        apply List.filter_eq_self.mpr
        intro a ha
        simpa using List.mem_range.mp ha

theorem poolInv_init (len n : ℕ) : PoolInv len (PoolSt.init n) := by
  constructor
  · have : pendings (List.replicate n WStat.idle) = [] := by
      induction n with
      | zero => rfl
      | succ n ih => rw [List.replicate_succ, pendings_cons, ih]; rfl
    simp [PoolSt.init, this]
  · rintro ⟨st, hmem, rfl⟩
    have := List.eq_of_mem_replicate hmem
    exact absurd this (by simp)

theorem poolInv_step {len : ℕ} {s s' : PoolSt} (hstep : PoolStep len s s')
    (hinv : PoolInv len s) : PoolInv len s' := by
  obtain ⟨hms, hstop⟩ := hinv
  cases hstep with
  | claim w hw h =>
      constructor
      · show (s.pushed : Multiset ℕ) +
            (pendings (s.workers.set w (.pending s.counter)) : Multiset ℕ) = _
        rw [pendings_set_of_get (.pending s.counter) hw]
        rw [pendings_decomp hw] at hms
        simp only [pendingBlock] at hms ⊢
        show _ = (((List.range (s.counter + 1)).filter (· < len) : List ℕ) : Multiset ℕ)
        rw [range_filter_succ, if_pos h]
        simp only [← Multiset.coe_add] at hms ⊢
        rw [← hms]
        abel
      · intro hex
        show len < s.counter + 1
        obtain ⟨st, hmem, rfl⟩ := hex
        rcases List.mem_or_eq_of_mem_set hmem with hmem' | heq
        · have := hstop ⟨_, hmem', rfl⟩
          omega
        · exact absurd heq (by simp)
  | claimStop w hw h =>
      constructor
      · show (s.pushed : Multiset ℕ) +
            (pendings (s.workers.set w .stopped) : Multiset ℕ) = _
        rw [pendings_set_of_get .stopped hw]
        rw [pendings_decomp hw] at hms
        simp only [pendingBlock] at hms ⊢
        show _ = (((List.range (s.counter + 1)).filter (· < len) : List ℕ) : Multiset ℕ)
        rw [range_filter_succ, if_neg (by omega)]
        simpa using hms
      · intro _
        show len < s.counter + 1
        omega
  | push w idx hw =>
      constructor
      · show ((s.pushed ++ [idx] : List ℕ) : Multiset ℕ) +
            (pendings (s.workers.set w .idle) : Multiset ℕ) = _
        rw [pendings_set_of_get .idle hw]
        rw [pendings_decomp hw] at hms
        simp only [pendingBlock] at hms ⊢
        simp only [← Multiset.coe_add] at hms ⊢
        rw [← hms]
        abel
      · intro hex
        show len < s.counter
        obtain ⟨st, hmem, rfl⟩ := hex
        rcases List.mem_or_eq_of_mem_set hmem with hmem' | heq
        · exact hstop ⟨_, hmem', rfl⟩
        · exact absurd heq (by simp)

theorem poolInv_reach {len : ℕ} {s s' : PoolSt} (hr : PoolReach len s s')
    (hinv : PoolInv len s) : PoolInv len s' := by
  induction hr with
  | refl => exact hinv
  | tail _ hstep ih => exact poolInv_step hstep ih

theorem pendings_eq_nil_of_done {s : PoolSt} (hd : PoolDone s) :
    pendings s.workers = [] := by
  have h : ∀ ws : List WStat, (∀ st ∈ ws, st = WStat.stopped) → pendings ws = [] := by
    intro ws hws
    induction ws with
    | nil => rfl
    | cons st ws ih =>
        rw [pendings_cons, hws st (by simp), ih (fun x hx => hws x (by simp [hx]))]
        rfl
  exact h s.workers hd

theorem poolReach_workers_length {len : ℕ} {a b : PoolSt}
    (hab : PoolReach len a b) : a.workers.length = b.workers.length := by
  induction hab with
  | refl => rfl
  | tail _ hstep ih => cases hstep <;> simp [← ih]

/-- Core pool correctness: starting from `n` workers, any completed
interleaving has pushed exactly the indices `0 … len - 1`, each exactly
once. -/
theorem pool_pushed_perm {len n : ℕ} {s : PoolSt}
    (hn : 0 < n ∨ len = 0)
    (hr : PoolReach len (PoolSt.init n) s) (hd : PoolDone s) :
    s.pushed.Perm (List.range len) := by
  have hinv := poolInv_reach hr (poolInv_init len n)
  obtain ⟨hms, hstop⟩ := hinv
  rw [pendings_eq_nil_of_done hd] at hms
  have hcnt : len ≤ s.counter := by
    rcases hn with hn | hn
    · have hlenw : s.workers.length = n := by
        have := poolReach_workers_length hr
        simpa [PoolSt.init] using this.symm
      have hne : s.workers ≠ [] := by
        intro hnil
        rw [hnil] at hlenw
        simp at hlenw
        omega
      obtain ⟨st, hmem⟩ := List.exists_mem_of_ne_nil _ hne
      have := hstop ⟨st, hmem, hd st hmem⟩
      omega
    · omega
  rw [range_filter_of_le hcnt] at hms
  have h2 : (s.pushed : Multiset ℕ) = ((List.range len : List ℕ) : Multiset ℕ) := by
    simpa using hms
  exact Multiset.coe_eq_coe.mp h2

/- ### Report extractors and small helpers -/

/-- The `status` field of the returned report. -/
def statusOf : DoPingResult → String
  | .skipped _ => "skipped"
  | .done _ => "done"

/-- The `totals` of a completed report, if any. -/
def totalsOf : DoPingResult → Option Totals
  | .skipped _ => none
  | .done r => some r.totals

/-- The `subrequestBudget` of a completed report, if any. -/
def reportBudget : DoPingResult → Option JsNum
  | .skipped _ => none
  | .done r => some r.subrequestBudget

/-- The `concurrencyUsed` of a completed report, if any. -/
def reportConcurrency : DoPingResult → Option JsNum
  | .skipped _ => none
  | .done r => some r.concurrencyUsed

theorem list_map_getD_range {α : Type} (l : List α) (d : α) :
    (List.range l.length).map (fun i => l.getD i d) = l := by
  induction l with
  | nil => rfl
  | cons a l ih =>
      rw [List.length_cons, List.range_succ_eq_map, List.map_cons, List.map_map]
      have h1 : (a :: l).getD 0 d = a := rfl
      have h2 : ((fun i => (a :: l).getD i d) ∘ Nat.succ) = fun i => l.getD i d := by
        funext i
        rfl
      rw [h1, h2, ih]

/- ### Claim theorems -/

/-- C1: for every non-empty endpoint list and clamped budget `B ≥ 1`,
repeatedly invoking the slice computation with cursor `0`, then the previous
`nextCursor`, and so on (`planList`, whose recursion stops exactly when
`nextCursor` is null) covers every endpoint exactly once — the concatenation
of the batches is the endpoint list itself — and performs exactly
`ceil(len / B)` invocations. Termination is witnessed by `planList` being a
total function. -/
theorem C1_plan_pagination (l : List String) (B : ℤ) (hB : 1 ≤ B) (hl : l ≠ []) :
    (planList l B hB 0).flatten = l ∧
    (planList l B hB 0).length = (l.length + B.toNat - 1) / B.toNat := by
  constructor
  · simpa using planList_join l B hB 0 le_rfl
  · have hlen : 0 < l.length := List.length_pos.mpr hl
    have h := planList_length l B hB 0 le_rfl (by exact_mod_cast hlen)
    simpa using h

/-- Witness for C1: three endpoints, budget 2, paginated in `⌈3/2⌉ = 2`
invocations. -/
theorem C1_plan_pagination_witness :
    (planList ["a", "b", "c"] 2 (by norm_num) 0).flatten = ["a", "b", "c"] ∧
    (planList ["a", "b", "c"] 2 (by norm_num) 0).length = 2 := by
  have h := C1_plan_pagination ["a", "b", "c"] 2 (by norm_num) (by simp)
  simpa using h

/-- C4: the encoder embeds every parameter through `escapeXml`
(`xmlRpc = xmlRpcSkeleton` applied to the escaped parameters); an escaped
parameter contains no occurrence at all of `<`, `>`, `"`, `'`; escaping is a
pure character-level transform (`flatMap escChar`), each character
contributing either one of the five entities or itself unchanged (and then
it is not reserved) — so every `&` in an escaped parameter starts an entity;
and a parameter already containing `&amp;` is escaped again to
`&amp;amp;`. -/
theorem C4_encoder_escaping :
    (∀ (method : String) (params : List String),
      xmlRpc method params = xmlRpcSkeleton method (params.map escapeXml))
  ∧ (∀ p : String,
      (escapeXml p).data.count '<' = 0 ∧ (escapeXml p).data.count '>' = 0 ∧
      (escapeXml p).data.count quoteC = 0 ∧ (escapeXml p).data.count aposC = 0)
  ∧ (∀ p : String, (escapeXml p).data = p.data.flatMap escChar)
  ∧ (∀ c : Char,
      escChar c = ampEnt ∨ escChar c = ltEnt ∨ escChar c = gtEnt ∨
      escChar c = quotEnt ∨ escChar c = aposEnt ∨
      (escChar c = [c] ∧ c ∉ reservedChars))
  ∧ escapeXml "&amp;" = "&amp;amp;" := by
  refine ⟨?_, ?_, ?_, escChar_shape, ?_⟩
  · intro method params
    simp only [xmlRpc, xmlRpcSkeleton, List.map_map]
    rfl
  · intro p
    exact ⟨count_escapeXmlL_eq_zero '<' (by simp) p.data,
      count_escapeXmlL_eq_zero '>' (by simp) p.data,
      count_escapeXmlL_eq_zero quoteC (by simp) p.data,
      count_escapeXmlL_eq_zero aposC (by simp) p.data⟩
  · intro p
    exact escapeXmlL_eq_bind p.data
  · decide

/-- C5: in every non-dry run that passes the rate-limit check, the
rate-limit record write (`put xmlrpc:last-ping`) appears in the effect trace
strictly before every ping dispatch: the trace splits around that write with
no ping event before it. -/
theorem C5_lock_written_before_dispatch (env : PingEnv) (payload : Payload)
    (opts : Opts) (kv : KvSnap) (net : String → NetResp)
    (hdry : opts.dryRun = false) (hrl : kv.lastPing = none) :
    ∃ pre post, (doPing env payload opts kv net).2 = pre ++ Ev.put RL_KEY :: post ∧
      ∀ u, Ev.ping u ∉ pre := by
  refine ⟨[Ev.get RL_KEY, Ev.get ENDPOINTS_KEY],
    (batchOf env payload opts kv).map Ev.ping ++ [Ev.put LAST_RESULT_KEY], ?_, ?_⟩
  · simp [doPing, hdry, hrl, batchOf]
  · intro u
    simp

/-- Witness for C5 at a concrete unlocked, non-dry invocation. -/
theorem C5_lock_written_before_dispatch_witness :
    ∃ pre post,
      (doPing {} {} {} {} (fun _ => ⟨true, 200, none⟩)).2 =
        pre ++ Ev.put RL_KEY :: post ∧ ∀ u, Ev.ping u ∉ pre :=
  C5_lock_written_before_dispatch {} {} {} {} (fun _ => ⟨true, 200, none⟩) rfl rfl

/-- C6: a dry run bypasses the rate-limit check and acquisition — its trace
contains no read and no write of `xmlrpc:last-ping` and no write of
`xmlrpc:last-result` — while the manual handler always writes the dry
snapshot `xmlrpc:last-dry`; and the run completes with status `done`
whatever the stored rate-limit state is (so two consecutive dry runs within
the same hour both return `done`). -/
theorem C6_dry_run_frame (env : PingEnv) (payload : Payload) (opts : Opts)
    (kv : KvSnap) (net : String → NetResp) (hdry : opts.dryRun = true) :
    statusOf (manualTrigger env payload opts kv net).1 = "done" ∧
    Ev.get RL_KEY ∉ (manualTrigger env payload opts kv net).2 ∧
    Ev.put RL_KEY ∉ (manualTrigger env payload opts kv net).2 ∧
    Ev.put LAST_RESULT_KEY ∉ (manualTrigger env payload opts kv net).2 ∧
    Ev.put LAST_DRY_KEY ∈ (manualTrigger env payload opts kv net).2 := by
  refine ⟨?_, ?_, ?_, ?_, ?_⟩ <;>
    simp [manualTrigger, doPing, hdry, statusOf, RL_KEY, ENDPOINTS_KEY,
      LAST_RESULT_KEY, LAST_DRY_KEY]

/-- Witness for C6 at a concrete dry invocation with the rate lock held. -/
theorem C6_dry_run_frame_witness :
    statusOf (manualTrigger {} {} { dryRun := true }
        { lastPing := some "1700000000000" } (fun _ => ⟨true, 200, none⟩)).1 = "done" ∧
    Ev.get RL_KEY ∉ (manualTrigger {} {} { dryRun := true }
        { lastPing := some "1700000000000" } (fun _ => ⟨true, 200, none⟩)).2 ∧
    Ev.put RL_KEY ∉ (manualTrigger {} {} { dryRun := true }
        { lastPing := some "1700000000000" } (fun _ => ⟨true, 200, none⟩)).2 ∧
    Ev.put LAST_RESULT_KEY ∉ (manualTrigger {} {} { dryRun := true }
        { lastPing := some "1700000000000" } (fun _ => ⟨true, 200, none⟩)).2 ∧
    Ev.put LAST_DRY_KEY ∈ (manualTrigger {} {} { dryRun := true }
        { lastPing := some "1700000000000" } (fun _ => ⟨true, 200, none⟩)).2 :=
  C6_dry_run_frame {} {} { dryRun := true } { lastPing := some "1700000000000" }
    (fun _ => ⟨true, 200, none⟩) rfl

/-- C8: a scheduled invocation whose detector answer equals the stored
last-seen marker reads the marker and terminates: its whole trace is that
single read, so no KV entry is written and no ping is dispatched. -/
theorem C8_scheduled_no_change (env : PingEnv) (kv : KvSnap)
    (net : String → NetResp) (id : String) (h : kv.lastSeen = some id) :
    scheduledRun env kv net (some id) = [Ev.get LAST_KEY] ∧
    (∀ k, Ev.put k ∉ scheduledRun env kv net (some id)) ∧
    (∀ u, Ev.ping u ∉ scheduledRun env kv net (some id)) := by
  have htr : scheduledRun env kv net (some id) = [Ev.get LAST_KEY] := by
    simp [scheduledRun, h]
  refine ⟨htr, ?_, ?_⟩ <;> intro x <;> rw [htr] <;> simp

/-- Witness for C8 at a concrete stored marker. -/
theorem C8_scheduled_no_change_witness :
    scheduledRun {} { lastSeen := some "abc123" } (fun _ => ⟨true, 200, none⟩)
      (some "abc123") = [Ev.get LAST_KEY] ∧
    (∀ k, Ev.put k ∉ scheduledRun {} { lastSeen := some "abc123" }
      (fun _ => ⟨true, 200, none⟩) (some "abc123")) ∧
    (∀ u, Ev.ping u ∉ scheduledRun {} { lastSeen := some "abc123" }
      (fun _ => ⟨true, 200, none⟩) (some "abc123")) :=
  C8_scheduled_no_change {} { lastSeen := some "abc123" }
    (fun _ => ⟨true, 200, none⟩) "abc123" rfl

/-- Counterexample to C2: a manual non-dry invocation that finds an
unexpired rate-limit record returns `skipped`, yet the handler (lines
166-168) still writes a new `xmlrpc:last-result` record — the persisted
last-real-result state is NOT left unchanged. -/
theorem C2_counterexample :
    statusOf (manualTrigger {} {} {} { lastPing := some "1700000000000" }
      (fun _ => ⟨true, 200, none⟩)).1 = "skipped" ∧
    Ev.put LAST_RESULT_KEY ∈ (manualTrigger {} {} {}
      { lastPing := some "1700000000000" } (fun _ => ⟨true, 200, none⟩)).2 := by
  constructor
  · rfl
  · decide

/-- C2 amended: a rate-limited manual non-dry invocation returns `skipped`
and `doPing` itself performs no KV write and dispatches no ping — but the
POST handler then unconditionally overwrites `xmlrpc:last-result` (with the
skipped report), so the full trace is exactly the rate-limit read followed
by that one write. -/
theorem C2_rate_limited_skip (env : PingEnv) (payload : Payload) (opts : Opts)
    (kv : KvSnap) (net : String → NetResp)
    (hdry : opts.dryRun = false) (hrl : kv.lastPing.isSome) :
    (manualTrigger env payload opts kv net).1 =
      DoPingResult.skipped "rate-limited (<=1/hour)" ∧
    (doPing env payload opts kv net).2 = [Ev.get RL_KEY] ∧
    (manualTrigger env payload opts kv net).2 =
      [Ev.get RL_KEY, Ev.put LAST_RESULT_KEY] := by
  have hcond : (¬opts.dryRun ∧ kv.lastPing.isSome) := by
    constructor
    · simp [hdry]
    · exact hrl
  refine ⟨?_, ?_, ?_⟩ <;> simp [manualTrigger, doPing, hdry, hrl, hcond]

/-- Witness for the amended C2 at a concrete locked state. -/
theorem C2_rate_limited_skip_witness :
    (manualTrigger {} {} {} { lastPing := some "1" }
        (fun _ => ⟨true, 200, none⟩)).1 =
      DoPingResult.skipped "rate-limited (<=1/hour)" ∧
    (doPing {} {} {} { lastPing := some "1" }
        (fun _ => ⟨true, 200, none⟩)).2 = [Ev.get RL_KEY] ∧
    (manualTrigger {} {} {} { lastPing := some "1" }
        (fun _ => ⟨true, 200, none⟩)).2 =
      [Ev.get RL_KEY, Ev.put LAST_RESULT_KEY] :=
  C2_rate_limited_skip {} {} {} { lastPing := some "1" }
    (fun _ => ⟨true, 200, none⟩) rfl rfl

/-- Inversion for completed runs: the fields of the returned report in terms
of the embedded components. -/
theorem doPing_done_fields {env : PingEnv} {payload : Payload} {opts : Opts}
    {kv : KvSnap} {net : String → NetResp} {r : DoneReport}
    (h : (doPing env payload opts kv net).1 = DoPingResult.done r) :
    r.summary = applyOnly opts.only (rawSummary env payload opts kv net) ∧
    r.totals.ok = ((applyOnly opts.only (rawSummary env payload opts kv net)).filter
      (fun x => x.ok)).length ∧
    r.totals.fail = ((applyOnly opts.only (rawSummary env payload opts kv net)).filter
      (fun x => !x.ok)).length ∧
    r.totals.total = (resolveEndpoints env payload kv opts.limit).length ∧
    r.totals.batchStart = (planJs (resolveEndpoints env payload kv opts.limit)
      (clampedBudget env) opts.cursor).batchStart ∧
    r.totals.batchEnd = (planJs (resolveEndpoints env payload kv opts.limit)
      (clampedBudget env) opts.cursor).batchEnd ∧
    r.totals.batchCount = (batchOf env payload opts kv).length ∧
    r.nextCursor = (planJs (resolveEndpoints env payload kv opts.limit)
      (clampedBudget env) opts.cursor).nextCursor ∧
    r.subrequestBudget = clampedBudget env ∧
    r.concurrencyUsed = maxConcurrencyOf env opts := by
  by_cases hc : ¬opts.dryRun ∧ kv.lastPing.isSome
  · rw [doPing] at h
    rw [if_pos hc] at h
    exact absurd h (by simp)
  · rw [doPing] at h
    rw [if_neg hc] at h
    simp only [DoPingResult.done.injEq] at h
    subst h
    exact ⟨rfl, rfl, rfl, rfl, rfl, rfl, rfl, rfl, rfl, rfl⟩

/-- Concrete inputs refuting C3: one succeeding and one failing endpoint. -/
def env3 : PingEnv := {}

/-- Payload with a two-endpoint list for the C3 scenario. -/
def payload3 : Payload :=
  { endpoints := some ["https://ok.example/", "https://bad.example/"] }

/-- Options for the C3 scenario: a dry run with output filter `fail`. -/
def opts3 : Opts := { dryRun := true, only := .fail }

/-- Network behaviour for the C3 scenario: the first endpoint returns 200,
the second 500. -/
def net3 : String → NetResp := fun u =>
  if u = "https://ok.example/" then ⟨true, 200, none⟩ else ⟨false, 500, none⟩

/-- Counterexample to C3: the batch has `o = 1` success and `f = 1` failure,
but under `only = fail` the report's `totals.ok` is `0`, not `o` — totals
are computed from the filtered summary (lines 331-340), so they are not
independent of the output filter. -/
theorem C3_counterexample :
    (totalsOf (doPing env3 payload3 opts3 {} net3).1).map
      (fun t => (t.ok, t.fail)) = some (0, 1) ∧
    ((rawSummary env3 payload3 opts3 {} net3).filter (fun x => x.ok)).length = 1 := by
  constructor
  · decide
  · decide

/-- C3 amended: totals are computed over the *filtered* summary. With
`only = fail` the returned summary is exactly the failing rows of the batch,
`totals.fail` counts them, and `totals.ok` is `0` (not the batch's success
count). -/
theorem C3_filtered_totals (env : PingEnv) (payload : Payload) (opts : Opts)
    (kv : KvSnap) (net : String → NetResp) (r : DoneReport)
    (h : (doPing env payload opts kv net).1 = DoPingResult.done r)
    (hfail : opts.only = .fail) :
    r.summary = (rawSummary env payload opts kv net).filter (fun x => !x.ok) ∧
    r.totals.fail = ((rawSummary env payload opts kv net).filter
      (fun x => !x.ok)).length ∧
    r.totals.ok = 0 ∧
    r.totals.ok = (r.summary.filter (fun x => x.ok)).length ∧
    r.totals.fail = (r.summary.filter (fun x => !x.ok)).length := by
  obtain ⟨hsum, hok, hfl, -⟩ := doPing_done_fields h
  have happ : applyOnly opts.only (rawSummary env payload opts kv net) =
      (rawSummary env payload opts kv net).filter (fun x => !x.ok) := by
    rw [hfail]
    simp [applyOnly]
  have hfilterok : ((rawSummary env payload opts kv net).filter
      (fun x => !x.ok)).filter (fun x => x.ok) = [] := by
    rw [List.filter_filter]
    apply List.filter_eq_nil_iff.mpr
    intro a _
    cases hx : a.ok <;> simp [hx]
  have hfilterfail : ((rawSummary env payload opts kv net).filter
      (fun x => !x.ok)).filter (fun x => !x.ok) =
      (rawSummary env payload opts kv net).filter (fun x => !x.ok) := by
    rw [List.filter_filter]
    apply List.filter_congr
    intro a _
    cases hx : a.ok <;> simp [hx]
  refine ⟨?_, ?_, ?_, ?_, ?_⟩
  · rw [hsum, happ]
  · rw [hfl, happ, hfilterfail]
  · rw [hok, happ, hfilterok]
    rfl
  · rw [hok, hsum]
  · rw [hfl, hsum]

/-- The report returned by the concrete C3 scenario. -/
def report3 : DoneReport :=
  { dryRun := true
    method := "weblogUpdates.ping"
    siteName := "Viorel Mocanu"
    siteUrl := "https://www.viorelmocanu.ro"
    feedUrl := none
    totals := { total := 2, batchStart := 0, batchEnd := some 2, batchCount := 2,
                ok := 0, fail := 1 }
    summary := [{ url := "https://bad.example/", ok := false, status := 500,
                  error := none }]
    nextCursor := none
    subrequestBudget := some 45
    concurrencyUsed := some 6 }

/-- Witness for the amended C3 at the concrete mixed batch. -/
theorem C3_filtered_totals_witness :
    report3.summary = (rawSummary env3 payload3 opts3 {} net3).filter
      (fun x => !x.ok) ∧
    report3.totals.fail = ((rawSummary env3 payload3 opts3 {} net3).filter
      (fun x => !x.ok)).length ∧
    report3.totals.ok = 0 ∧
    report3.totals.ok = (report3.summary.filter (fun x => x.ok)).length ∧
    report3.totals.fail = (report3.summary.filter (fun x => !x.ok)).length :=
  C3_filtered_totals env3 payload3 opts3 {} net3 report3 (by decide) rfl

/-- Environment refuting C7: `SUBREQ_BUDGET` is configured to a string that
does not parse as a number (e.g. `"abc"`), so `Number(...)` yields `NaN`. -/
def env7 : PingEnv := { SUBREQ_BUDGET := some none }

/-- A one-endpoint payload for the C7 scenario. -/
def payload7 : Payload := { endpoints := some ["https://x.example/"] }

/-- A dry run for the C7 scenario. -/
def opts7 : Opts := { dryRun := true }

/-- Counterexample to C7: with a non-numeric `SUBREQ_BUDGET` the clamp
`Math.max(1, Math.min(NaN, 1000))` is `NaN`, and the completed report's
`subrequestBudget` is `NaN` — not in `[1, 1000]`. -/
theorem C7_counterexample :
    reportBudget (doPing env7 payload7 opts7 {}
      (fun _ => ⟨true, 200, none⟩)).1 = some none := by
  decide

/-- C7 amended: whenever the configured budget and concurrency values parse
as numbers (are not `NaN`), every completed report satisfies
`1 ≤ subrequestBudget ≤ 1000` and `1 ≤ concurrencyUsed ≤ 6`. -/
theorem C7_clamped_limits (env : PingEnv) (payload : Payload) (opts : Opts)
    (kv : KvSnap) (net : String → NetResp) (r : DoneReport)
    (h : (doPing env payload opts kv net).1 = DoPingResult.done r)
    (hB : (env.SUBREQ_BUDGET.getD (some 45)).isSome)
    (hc1 : (env.PING_CONCURRENCY.getD (some 6)).isSome)
    (hc2 : ∀ c ∈ opts.concurrency, Option.isSome c) :
    ∃ b k : ℤ, r.subrequestBudget = some b ∧ 1 ≤ b ∧ b ≤ 1000 ∧
      r.concurrencyUsed = some k ∧ 1 ≤ k ∧ k ≤ 6 := by
  obtain ⟨-, -, -, -, -, -, -, -, hbud, hconc⟩ := doPing_done_fields h
  obtain ⟨x, hx⟩ := Option.isSome_iff_exists.mp hB
  obtain ⟨y, hy⟩ := Option.isSome_iff_exists.mp hc1
  have hbudget : r.subrequestBudget = some (max 1 (min x 1000)) := by
    rw [hbud, clampedBudget, hx]
    rfl
  have hK : ∃ k : ℤ, r.concurrencyUsed = some k ∧ 1 ≤ k ∧ k ≤ 6 := by
    cases hoc : opts.concurrency with
    | none =>
        have hcu : r.concurrencyUsed =
            some (max 1 (min (max 1 (min y 10)) 6)) := by
          rw [hconc, maxConcurrencyOf, hoc, hy]
          rfl
        exact ⟨max 1 (min (max 1 (min y 10)) 6), hcu, by omega, by omega⟩
    | some c =>
        have hcsome := hc2 c (by rw [hoc]; rfl)
        obtain ⟨z, hz⟩ := Option.isSome_iff_exists.mp hcsome
        have hcu : r.concurrencyUsed = some (max 1 (min z 6)) := by
          rw [hconc, maxConcurrencyOf, hoc, hz]
          rfl
        exact ⟨max 1 (min z 6), hcu, by omega, by omega⟩
  obtain ⟨k, hcu, hk1, hk6⟩ := hK
  exact ⟨max 1 (min x 1000), k, hbudget, by omega, by omega, hcu, hk1, hk6⟩

/-- The report of the concrete well-configured C7 run. -/
def report7 : DoneReport :=
  { dryRun := true
    method := "weblogUpdates.ping"
    siteName := "Viorel Mocanu"
    siteUrl := "https://www.viorelmocanu.ro"
    feedUrl := none
    totals := { total := 1, batchStart := 0, batchEnd := some 1, batchCount := 1,
                ok := 1, fail := 0 }
    summary := [{ url := "https://x.example/", ok := true, status := 200,
                  error := none }]
    nextCursor := none
    subrequestBudget := some 45
    concurrencyUsed := some 6 }

/-- Witness for the amended C7 at a default (numeric) configuration. -/
theorem C7_clamped_limits_witness :
    ∃ b k : ℤ, report7.subrequestBudget = some b ∧ 1 ≤ b ∧ b ≤ 1000 ∧
      report7.concurrencyUsed = some k ∧ 1 ≤ k ∧ k ≤ 6 :=
  C7_clamped_limits {} payload7 opts7 {} (fun _ => ⟨true, 200, none⟩) report7
    (by decide) (by decide) (by decide) (by intro c hc; simp [opts7] at hc)

/-- The shape of a non-skipped invocation's effect trace. -/
theorem doPing_trace_shape {env : PingEnv} {payload : Payload} {opts : Opts}
    {kv : KvSnap} {net : String → NetResp}
    (hc : ¬(¬opts.dryRun ∧ kv.lastPing.isSome)) :
    (doPing env payload opts kv net).2 =
      (if opts.dryRun then [] else [Ev.get RL_KEY]) ++ [Ev.get ENDPOINTS_KEY] ++
      (if opts.dryRun then [] else [Ev.put RL_KEY]) ++
      (batchOf env payload opts kv).map Ev.ping ++
      (if opts.dryRun then [] else [Ev.put LAST_RESULT_KEY]) := by
  simp only [doPing]
  rw [if_neg hc]
  rfl

/-- A non-skipped invocation completes. -/
theorem doPing_done_exists {env : PingEnv} {payload : Payload} {opts : Opts}
    {kv : KvSnap} {net : String → NetResp}
    (hc : ¬(¬opts.dryRun ∧ kv.lastPing.isSome)) :
    ∃ r, (doPing env payload opts kv net).1 = DoPingResult.done r := by
  simp only [doPing, if_neg hc]
  exact ⟨_, rfl⟩

/-- The filter leaves an empty result set empty. -/
theorem applyOnly_nil (o : OnlyFilter) : applyOnly o [] = [] := by
  cases o <;> rfl

/-- C10 amended: a non-dry-skipped invocation whose cursor is at least the
(possibly limit-truncated) endpoint-list length completes with status
`done`, an empty summary, `batchCount = 0`, `nextCursor = null`,
`batchEnd` equal to the list length and *at most* `batchStart` (they are
equal when the cursor equals the length, strictly below it when the cursor
overshoots), and dispatches no ping request. -/
theorem C10_overrun_cursor (env : PingEnv) (payload : Payload) (opts : Opts)
    (kv : KvSnap) (net : String → NetResp)
    (hB : (env.SUBREQ_BUDGET.getD (some 45)).isSome)
    (hrate : opts.dryRun = true ∨ kv.lastPing = none)
    (hcur : ((resolveEndpoints env payload kv opts.limit).length : ℤ) ≤ opts.cursor) :
    ∃ r, (doPing env payload opts kv net).1 = DoPingResult.done r ∧
      r.summary = [] ∧
      r.totals.batchCount = 0 ∧
      r.nextCursor = none ∧
      r.totals.batchEnd =
        some ((resolveEndpoints env payload kv opts.limit).length : ℤ) ∧
      ((resolveEndpoints env payload kv opts.limit).length : ℤ) ≤
        r.totals.batchStart ∧
      ∀ u, Ev.ping u ∉ (doPing env payload opts kv net).2 := by
  have hc : ¬(¬opts.dryRun ∧ kv.lastPing.isSome) := by
    rintro ⟨h1, h2⟩
    rcases hrate with hd | hrl
    · exact h1 hd
    · rw [hrl] at h2
      exact absurd h2 (by simp)
  obtain ⟨x, hx⟩ := Option.isSome_iff_exists.mp hB
  have hcb : clampedBudget env = some (max 1 (min x 1000)) := by
    rw [clampedBudget, hx]
    rfl
  have hpp : planJs (resolveEndpoints env payload kv opts.limit)
      (clampedBudget env) opts.cursor =
      plan (resolveEndpoints env payload kv opts.limit) (max 1 (min x 1000))
        opts.cursor := by
    rw [hcb]
    rfl
  have hmin : min ((resolveEndpoints env payload kv opts.limit).length : ℤ)
      (max 0 opts.cursor + max 1 (min x 1000)) =
      ((resolveEndpoints env payload kv opts.limit).length : ℤ) := by
    omega
  have hbatch : batchOf env payload opts kv = [] := by
    rw [batchOf, hpp, plan_batch, hmin]
    rw [Int.toNat_natCast, List.take_length]
    apply List.drop_eq_nil_of_le
    omega
  obtain ⟨r, hr⟩ := @doPing_done_exists env payload opts kv net hc
  obtain ⟨hsum, -, -, -, hbs, hbe, hbc, hnc, -, -⟩ := doPing_done_fields hr
  refine ⟨r, hr, ?_, ?_, ?_, ?_, ?_, ?_⟩
  · rw [hsum, rawSummary, hbatch]
    exact applyOnly_nil _
  · rw [hbc, hbatch]
    rfl
  · rw [hnc, hpp, plan_nextCursor, hmin]
    simp
  · rw [hbe, hpp, plan_batchEnd, hmin]
  · rw [hbs, hpp, plan_batchStart]
    omega
  · intro u
    rw [doPing_trace_shape hc, hbatch]
    simp [RL_KEY, ENDPOINTS_KEY, LAST_RESULT_KEY]

/-- A two-endpoint payload for the C10 boundary scenario. -/
def payload10 : Payload :=
  { endpoints := some ["https://a.example/", "https://b.example/"] }

/-- Options for the C10 boundary scenario: dry run with `cursor` equal to
the list length. -/
def opts10 : Opts := { dryRun := true, cursor := 2 }

/-- Counterexample to C10: at `cursor = len` (here both 2) the completed
report has `batchEnd = batchStart = 2`, so `batchEnd` is NOT strictly less
than `batchStart` as the claim asserts for every `cursor ≥ len`. -/
theorem C10_counterexample :
    (totalsOf (doPing {} payload10 opts10 {}
        (fun _ => ⟨true, 200, none⟩)).1).map
      (fun t => (t.batchEnd, t.batchStart)) = some (some 2, 2) ∧
    ¬ ∃ t, totalsOf (doPing {} payload10 opts10 {}
        (fun _ => ⟨true, 200, none⟩)).1 = some t ∧
        t.batchEnd = some (2 : ℤ) ∧ (2 : ℤ) < t.batchStart := by
  have hval : totalsOf (doPing {} payload10 opts10 {}
      (fun _ => ⟨true, 200, none⟩)).1 =
      some ⟨2, 2, some 2, 0, 0, 0⟩ := by decide
  constructor
  · rw [hval]
    rfl
  · rintro ⟨t, ht, -, hlt⟩
    rw [hval] at ht
    obtain rfl : (⟨2, 2, some 2, 0, 0, 0⟩ : Totals) = t :=
      Option.some_injective _ ht
    exact absurd hlt (by norm_num)

/-- Witness for the amended C10 at the concrete boundary input. -/
theorem C10_overrun_cursor_witness :
    ∃ r, (doPing {} payload10 opts10 {}
        (fun _ => ⟨true, 200, none⟩)).1 = DoPingResult.done r ∧
      r.summary = [] ∧
      r.totals.batchCount = 0 ∧
      r.nextCursor = none ∧
      r.totals.batchEnd =
        some ((resolveEndpoints {} payload10 {} opts10.limit).length : ℤ) ∧
      ((resolveEndpoints {} payload10 {} opts10.limit).length : ℤ) ≤
        r.totals.batchStart ∧
      ∀ u, Ev.ping u ∉ (doPing {} payload10 opts10 {}
        (fun _ => ⟨true, 200, none⟩)).2 :=
  C10_overrun_cursor {} payload10 opts10 {} (fun _ => ⟨true, 200, none⟩)
    (by decide) (Or.inl rfl) (by decide)

/-- C9: for every planned batch slice and every completed interleaving of
the worker pool (with at least one requested worker), the pushed outcomes
cover each slice position exactly once — the pushed index sequence is a
permutation of `range len`, and mapping positions back to URLs yields a
permutation of the slice — no URL is pinged twice, none is omitted, even
when the slice is longer than the worker count. -/
theorem C9_pool_exactly_once (env : PingEnv) (payload : Payload) (opts : Opts)
    (kv : KvSnap) (size : ℕ) (s : PoolSt)
    (hsize : 1 ≤ size)
    (hr : PoolReach (batchOf env payload opts kv).length
            (PoolSt.init (min size (batchOf env payload opts kv).length)) s)
    (hd : PoolDone s) :
    s.pushed.Perm (List.range (batchOf env payload opts kv).length) ∧
    (s.pushed.map (fun i => (batchOf env payload opts kv).getD i "")).Perm
      (batchOf env payload opts kv) := by
  have hn : 0 < min size (batchOf env payload opts kv).length ∨
      (batchOf env payload opts kv).length = 0 := by omega
  have hperm := pool_pushed_perm hn hr hd
  refine ⟨hperm, ?_⟩
  have hmap := hperm.map (fun i => (batchOf env payload opts kv).getD i "")
  rwa [list_map_getD_range] at hmap

/-- A three-endpoint payload for the C9 scenario. -/
def payload9 : Payload :=
  { endpoints := some ["https://a.example/", "https://b.example/",
                       "https://c.example/"] }

/-- A dry run for the C9 scenario. -/
def opts9 : Opts := { dryRun := true }

/-- A completed pool state for the C9 scenario: two workers processed the
three-element slice; results were pushed in order 0, 1, 2 across an
interleaved schedule. -/
def poolS9 : PoolSt := ⟨5, [.stopped, .stopped], [0, 1, 2]⟩

/-- Witness for C9: a concrete completed two-worker interleaving over a
three-URL slice. -/
theorem C9_pool_exactly_once_witness :
    poolS9.pushed.Perm (List.range (batchOf {} payload9 opts9 {}).length) ∧
    (poolS9.pushed.map (fun i => (batchOf {} payload9 opts9 {}).getD i "")).Perm
      (batchOf {} payload9 opts9 {}) := by
  apply C9_pool_exactly_once {} payload9 opts9 {} 2 poolS9 (by norm_num)
  · have hlen : (batchOf {} payload9 opts9 {}).length = 3 := by decide
    rw [hlen]
    show PoolReach 3 (PoolSt.init 2) poolS9
    exact .head (PoolStep.claim _ 0 (by decide) (by decide))
      (.head (PoolStep.claim _ 1 (by decide) (by decide))
      (.head (PoolStep.push _ 0 0 (by decide))
      (.head (PoolStep.claim _ 0 (by decide) (by decide))
      (.head (PoolStep.push _ 1 1 (by decide))
      (.head (PoolStep.claimStop _ 1 (by decide) (by decide))
      (.head (PoolStep.push _ 0 2 (by decide))
      (.head (PoolStep.claimStop _ 0 (by decide) (by decide)) .refl)))))))
  · intro st hst
    fin_cases hst <;> rfl
